import Mathlib

/-!
Verification development for `gittracker.py`: the blame-attribution parser
(`GitWrapper.get_blame_file`), the sequence aligner (the standard library
`difflib.SequenceMatcher`, specialized to `isjunk = None` exactly as the
program constructs it, with the default `autojunk = True`), the ownership
detector and walker (`GitTracker._track_file`, `GitTracker._track_branch`,
`GitTracker.track`).

Python strings are modelled through their character lists; Python string
helpers (`str.split()`, `str.startswith`, slicing, `str.strip()`) are defined
below over `List Char`.  Loops with a decreasing measure are written with an
explicit fuel argument equal to that measure at the call site; the fuel runs
out only when the loop condition is already false, so the fuelled function
computes the same value as the unbounded loop.
-/

namespace Gittracker

/-- Python `str.split()` (no separator): split on runs of whitespace,
dropping empty tokens.  Helper carrying the current token (reversed). -/
def pySplitAux : List Char → List Char → List String
  | [], cur => if cur.isEmpty then [] else [⟨cur.reverse⟩]
  | c :: cs, cur =>
    if c.isWhitespace then
      if cur.isEmpty then pySplitAux cs [] else ⟨cur.reverse⟩ :: pySplitAux cs []
    else pySplitAux cs (c :: cur)

/-- Python `line.split()`. -/
def pySplit (s : String) : List String := pySplitAux s.data []

/-- Python `line.startswith(p)`. -/
def pyStartsWith (s p : String) : Bool := p.data.isPrefixOf s.data

/-- Python `s[n:]` (drop the first `n` characters). -/
def pyDrop (s : String) (n : Nat) : String := ⟨s.data.drop n⟩

/-- Python `s.strip()`: remove leading and trailing whitespace. -/
def pyStrip (s : String) : String :=
  ⟨((s.data.dropWhile Char.isWhitespace).reverse.dropWhile Char.isWhitespace).reverse⟩

/-- Python `l[i:j]` for `0 ≤ i ≤ j` (as used by `_track_file` on opcode
ranges). -/
def pySlice {α : Type} (l : List α) (i j : Nat) : List α := (l.drop i).take (j - i)

/-! ## The blame parser (`GitWrapper.get_blame_file`, lines 66-125) -/

/-- The exceptions the parsing loop can raise: `IndexError` from
`info[0]` / `info[2]` on a header line with fewer than three tokens, and the
explicit `Exception('Unexpected line: ...')`. -/
inductive ParseError
  | indexError
  | unexpectedLine (line : String)
  deriving DecidableEq

/-- The `blockinfo` dict: each recognized key either absent (`none`) or
present.  Keys are only ever added, never removed. -/
structure Blockinfo where
  hash : Option String := none
  lineno : Option String := none
  author : Option String := none
  authorMail : Option String := none
  authorTime : Option String := none
  authorTz : Option String := none
  committer : Option String := none
  committerMail : Option String := none
  committerTime : Option String := none
  committerTz : Option String := none
  summary : Option String := none
  filename : Option String := none
  previous : Option String := none
  content : Option String := none
  deriving DecidableEq

/-- The empty dict `{}`. -/
def Blockinfo.empty : Blockinfo := {}

/-- Python `not blockinfo`: the dict has no keys. -/
def Blockinfo.isEmpty (b : Blockinfo) : Bool :=
  b.hash.isNone && b.lineno.isNone && b.author.isNone && b.authorMail.isNone &&
  b.authorTime.isNone && b.authorTz.isNone && b.committer.isNone &&
  b.committerMail.isNone && b.committerTime.isNone && b.committerTz.isNone &&
  b.summary.isNone && b.filename.isNone && b.previous.isNone && b.content.isNone

/-- The `while position < len(output)` loop of `get_blame_file`, carrying the
in-progress `blockinfo`.  A raised exception discards all accumulated
records, which `Except.error` models.  The final in-progress block (no
content line seen) is discarded, as in the source. -/
def parseBlameAux : List String → Blockinfo → Except ParseError (List Blockinfo)
  | [], _ => Except.ok []
  | line :: rest, blockinfo =>
    if blockinfo.isEmpty then
      match pySplit line with
      | info0 :: _ :: info2 :: _ =>
        parseBlameAux rest { blockinfo with hash := some info0, lineno := some info2 }
      | _ => Except.error ParseError.indexError
    else if pyStartsWith line "author " then
      parseBlameAux rest { blockinfo with author := some (pyDrop line "author ".length) }
    else if pyStartsWith line "author-mail " then
      parseBlameAux rest { blockinfo with authorMail := some (pyDrop line "author-mail ".length) }
    else if pyStartsWith line "author-time " then
      parseBlameAux rest { blockinfo with authorTime := some (pyDrop line "author-time ".length) }
    else if pyStartsWith line "author-tz " then
      parseBlameAux rest { blockinfo with authorTz := some (pyDrop line "author-tz ".length) }
    else if pyStartsWith line "committer " then
      parseBlameAux rest { blockinfo with committer := some (pyDrop line "committer ".length) }
    else if pyStartsWith line "committer-mail " then
      parseBlameAux rest { blockinfo with committerMail := some (pyDrop line "committer-mail ".length) }
    else if pyStartsWith line "committer-time " then
      parseBlameAux rest { blockinfo with committerTime := some (pyDrop line "committer-time ".length) }
    else if pyStartsWith line "committer-tz " then
      parseBlameAux rest { blockinfo with committerTz := some (pyDrop line "committer-tz ".length) }
    else if pyStartsWith line "summary " then
      parseBlameAux rest { blockinfo with summary := some (pyDrop line "summary ".length) }
    else if pyStartsWith line "filename " then
      parseBlameAux rest { blockinfo with filename := some (pyDrop line "filename ".length) }
    else if pyStartsWith line "previous " then
      parseBlameAux rest { blockinfo with previous := some (pyDrop line "previous ".length) }
    else if pyStartsWith line "\t" then
      match parseBlameAux rest Blockinfo.empty with
      | Except.ok recs =>
        Except.ok ({ blockinfo with content := some (pyDrop line "\t".length) } :: recs)
      | Except.error e => Except.error e
    else Except.error (ParseError.unexpectedLine line)

/-- The parsing part of `get_blame_file`, as a function of the retrieved
output lines. -/
def parseBlame (lines : List String) : Except ParseError (List Blockinfo) :=
  parseBlameAux lines Blockinfo.empty

/-- Outcome of the `git blame` subprocess: captured output lines, or a
`CalledProcessError` with its return code. -/
inductive GitCmdResult
  | ok (lines : List String)
  | err (returncode : Int)

/-- Failures of `get_blame_file`: a re-raised subprocess error (return code
other than 128), or a parse exception. -/
inductive BlameError
  | processError (returncode : Int)
  | parseError (e : ParseError)
  deriving DecidableEq

/-- `get_blame_file`: return code 128 means the file is absent at the
revision and is normalized to empty output; any other failure is re-raised;
otherwise the output lines are parsed. -/
def get_blame_file (res : GitCmdResult) : Except BlameError (List Blockinfo) :=
  match res with
  | GitCmdResult.ok lines => (parseBlame lines).mapError BlameError.parseError
  | GitCmdResult.err rc =>
    if rc = 128 then (parseBlame []).mapError BlameError.parseError
    else Except.error (BlameError.processError rc)

/-! ## The aligner: `difflib.SequenceMatcher`

The program constructs `difflib.SequenceMatcher(None)` (no junk predicate)
and uses the default `autojunk = True`.  With `isjunk = None` the junk set
`bjunk` is empty, so the two junk-extension loops of `find_longest_match`
never run and are omitted; the "popular" purge of `b2j` (autojunk) is kept.
The result triples `Match(a, b, size)` are `MatchBlock` below; the same
shape carries `(besti, bestj, bestsize)` inside `find_longest_match`. -/

structure MatchBlock where
  a : Nat
  b : Nat
  size : Nat
  deriving DecidableEq

/-- `b2j` before the popular purge: for each element, the (increasing) list
of indices at which it occurs in `b`. -/
def b2jAll (b : List String) (elt : String) : List Nat :=
  (List.range b.length).filter (fun i => b.getD i "" == elt)

/-- `b2j` after the autojunk purge: with `len(b) >= 200`, elements occurring
more than `len(b) // 100 + 1` times are removed; `b2j.get(x, [])` on a
removed or absent key gives `[]`. -/
def b2j (b : List String) (elt : String) : List Nat :=
  if 200 ≤ b.length ∧ b.length / 100 + 1 < (b2jAll b elt).length then []
  else b2jAll b elt

/-- Inner loop of `find_longest_match`, over `b2j.get(a[i], [])`: `continue`
on `j < blo`, `break` on `j >= bhi`, otherwise store
`newj2len[j] = j2len.get(j-1, 0) + 1` and update the best triple when the
new chain is strictly longer.  Dicts with default 0 are total functions;
Python's `j2len.get(-1, 0)` (for `j = 0`) is the `j = 0` guard.
The best update `(i-k+1, j-k+1, k)` is written `(i+1-k, j+1-k, k)`, equal to
it over the integers; `k ≤ i+1` and `k ≤ j+1` always hold (see
`J2LenInv`), so natural subtraction agrees with Python's. -/
def flmInner (j2len : Nat → Nat) (blo bhi i : Nat) :
    List Nat → (Nat → Nat) → MatchBlock → (Nat → Nat) × MatchBlock
  | [], newj2len, best => (newj2len, best)
  | j :: js, newj2len, best =>
    if j < blo then flmInner j2len blo bhi i js newj2len best
    else if bhi ≤ j then (newj2len, best)
    else
      let k := (if j = 0 then 0 else j2len (j - 1)) + 1
      let newj2len' := fun x => if x = j then k else newj2len x
      let best' := if best.size < k then MatchBlock.mk (i + 1 - k) (j + 1 - k) k else best
      flmInner j2len blo bhi i js newj2len' best'

/-- Outer loop of `find_longest_match`, over `i in range(alo, ahi)`; each
iteration starts a fresh empty `newj2len`. -/
def flmOuter (a : List String) (b2jf : String → List Nat) (blo bhi : Nat) :
    List Nat → (Nat → Nat) → MatchBlock → MatchBlock
  | [], _, best => best
  | i :: is, j2len, best =>
    let r := flmInner j2len blo bhi i (b2jf (a.getD i "")) (fun _ => 0) best
    flmOuter a b2jf blo bhi is r.1 r.2

/-- First extension loop: `while besti > alo and bestj > blo and
a[besti-1] == b[bestj-1]`.  Fuel: `besti - alo` at the call site (each step
decreases `besti` by one and the loop stops at `besti = alo`). -/
def flmExtendLo (a b : List String) (alo blo : Nat) : Nat → MatchBlock → MatchBlock
  | 0, s => s
  | fuel + 1, s =>
    if alo < s.a ∧ blo < s.b ∧ a.getD (s.a - 1) "" == b.getD (s.b - 1) "" then
      flmExtendLo a b alo blo fuel (MatchBlock.mk (s.a - 1) (s.b - 1) (s.size + 1))
    else s

/-- Second extension loop: `while besti+bestsize < ahi and bestj+bestsize <
bhi and a[besti+bestsize] == b[bestj+bestsize]`.  Fuel:
`ahi - (besti + bestsize)` at the call site. -/
def flmExtendHi (a b : List String) (ahi bhi : Nat) : Nat → MatchBlock → MatchBlock
  | 0, s => s
  | fuel + 1, s =>
    if s.a + s.size < ahi ∧ s.b + s.size < bhi ∧
        a.getD (s.a + s.size) "" == b.getD (s.b + s.size) "" then
      flmExtendHi a b ahi bhi fuel (MatchBlock.mk s.a s.b (s.size + 1))
    else s

/-- `find_longest_match(alo, ahi, blo, bhi)` with `bjunk = ∅`
(`isjunk = None`): the two junk-extension loops never fire and are
omitted. -/
def find_longest_match (a b : List String) (alo ahi blo bhi : Nat) : MatchBlock :=
  let best := flmOuter a (b2j b) blo bhi (List.range' alo (ahi - alo))
    (fun _ => 0) (MatchBlock.mk alo blo 0)
  let best := flmExtendLo a b alo blo (best.a - alo) best
  flmExtendHi a b ahi bhi (ahi - (best.a + best.size)) best

/-- Recursive collection of matching blocks (the queue-plus-final-sort of
`get_matching_blocks` written as in-order recursion over the region split,
which produces exactly the sorted block list: every block found left of the
match has both coordinates strictly below it, every block right of it has
both coordinates strictly above).  Fuel: the region size
`(ahi - alo) + (bhi - blo)`; both subregions are strictly smaller, and on an
empty region the match size is 0 and nothing is produced. -/
def matchingBlocksAux (a b : List String) : Nat → Nat → Nat → Nat → Nat → List MatchBlock
  | 0, _, _, _, _ => []
  | fuel + 1, alo, ahi, blo, bhi =>
    let m := find_longest_match a b alo ahi blo bhi
    if 0 < m.size then
      (if alo < m.a ∧ blo < m.b then matchingBlocksAux a b fuel alo m.a blo m.b else []) ++
      m ::
      (if m.a + m.size < ahi ∧ m.b + m.size < bhi then
        matchingBlocksAux a b fuel (m.a + m.size) ahi (m.b + m.size) bhi else [])
    else []

/-- The adjacent-block collapsing loop of `get_matching_blocks`, carrying
`(i1, j1, k1)` (initially `(0, 0, 0)`); a block is emitted only when its
size is nonzero. -/
def collapseAdjacent : Nat → Nat → Nat → List MatchBlock → List MatchBlock
  | i1, j1, k1, [] => if k1 ≠ 0 then [MatchBlock.mk i1 j1 k1] else []
  | i1, j1, k1, m :: rest =>
    if i1 + k1 = m.a ∧ j1 + k1 = m.b then collapseAdjacent i1 j1 (k1 + m.size) rest
    else
      (if k1 ≠ 0 then [MatchBlock.mk i1 j1 k1] else []) ++
        collapseAdjacent m.a m.b m.size rest

/-- `get_matching_blocks()`: collect blocks over the whole region, collapse
adjacent ones, and append the `(len(a), len(b), 0)` sentinel. -/
def get_matching_blocks (a b : List String) : List MatchBlock :=
  collapseAdjacent 0 0 0
      (matchingBlocksAux a b (a.length + b.length) 0 a.length 0 b.length) ++
    [MatchBlock.mk a.length b.length 0]

inductive Tag
  | replace
  | delete
  | insert
  | equal
  deriving DecidableEq

structure Opcode where
  tag : Tag
  a1 : Nat
  a2 : Nat
  b1 : Nat
  b2 : Nat
  deriving DecidableEq

/-- The loop of `get_opcodes()`, carrying the current position `(i, j)`. -/
def opcodesLoop : Nat → Nat → List MatchBlock → List Opcode
  | _, _, [] => []
  | i, j, m :: rest =>
    (if i < m.a ∧ j < m.b then [Opcode.mk Tag.replace i m.a j m.b]
     else if i < m.a then [Opcode.mk Tag.delete i m.a j m.b]
     else if j < m.b then [Opcode.mk Tag.insert i m.a j m.b]
     else []) ++
    (if m.size ≠ 0 then [Opcode.mk Tag.equal m.a (m.a + m.size) m.b (m.b + m.size)] else []) ++
    opcodesLoop (m.a + m.size) (m.b + m.size) rest

/-- `get_opcodes()`. -/
def get_opcodes (a b : List String) : List Opcode :=
  opcodesLoop 0 0 (get_matching_blocks a b)

/-! ## The walker (`GitTracker`, lines 128-209) -/

/-- `{x['author-mail'] for x in slice}` as a `Finset`.  Records emitted by
the parser carry the key exactly when an `author-mail` line occurred; on a
record lacking it the Python expression raises `KeyError`, so theorems about
the detector assume the key present, under which `filterMap` reads exactly
the dict values. -/
def authorsOf (rs : List Blockinfo) : Finset String :=
  (rs.filterMap (fun r => r.authorMail)).toFinset

/-- `x['content']` as read by `_track_file`; parser-emitted records always
carry the key (the content line is what seals a record). -/
def contentOf (r : Blockinfo) : String := r.content.getD ""

/-- `GitTracker._track_file` after the two blame retrievals: align the
stripped contents, skip `equal` opcodes, skip blocks whose mainline author
set minus branch author set is empty, yield the two record slices. -/
def track_file (blame_master blame_branch : List Blockinfo) :
    List (List Blockinfo × List Blockinfo) :=
  let seq1 := blame_master.map (fun x => pyStrip (contentOf x))
  let seq2 := blame_branch.map (fun x => pyStrip (contentOf x))
  (get_opcodes seq1 seq2).filterMap (fun op =>
    if op.tag = Tag.equal then none
    else
      let authors_master := authorsOf (pySlice blame_master op.a1 op.a2)
      let authors_branch := authorsOf (pySlice blame_branch op.b1 op.b2)
      if authors_master \ authors_branch = ∅ then none
      else some (pySlice blame_master op.a1 op.a2, pySlice blame_branch op.b1 op.b2))

/-- The `GitTracker` constructor arguments (stored unchanged; the
constructor performs no validation and no regex compilation).  Dates are
POSIX timestamps. -/
structure TrackerConfig where
  remote : String
  branches : Option (List String) := none
  no_branches : Option (List String) := none
  files : Option (List String) := none
  no_files : Option (List String) := none
  after_date : Option Int := none
  before_date : Option Int := none

/-- Python truthiness of an optional list argument: `None` and `[]` are
falsy. -/
def optTruthy (o : Option (List String)) : Bool := !(o.getD []).isEmpty

/-- `'|'.join(patterns)`. -/
def joinBar (pats : List String) : String := String.intercalate "|" pats

/-- `'%s/%s' % (remote, branch)`. -/
def branch_full (remote branch : String) : String := remote ++ "/" ++ branch

/-- `'%s/master' % remote` — the mainline ref is hardcoded to `master`. -/
def master_full (remote : String) : String := remote ++ "/master"

/-- `self._after_date and authordate < self._after_date` (a datetime object
is always truthy, so only `None` short-circuits). -/
def afterSkip (after_date : Option Int) (authordate : Int) : Bool :=
  match after_date with
  | some d => decide (authordate < d)
  | none => false

/-- `self._before_date and authordate > self._before_date`. -/
def beforeSkip (before_date : Option Int) (authordate : Int) : Bool :=
  match before_date with
  | some d => decide (d < authordate)
  | none => false

/-- The per-branch admission test of `GitTracker.track` (the four `continue`
guards).  `reSearch p s` stands for
`re.compile(p, re.IGNORECASE).search(s) is not None`; the regex engine is a
parameter of the model. -/
def branchAdmitted (reSearch : String → String → Bool) (cfg : TrackerConfig)
    (branch : String) (authordate : Int) : Bool :=
  !(optTruthy cfg.branches && !reSearch (joinBar (cfg.branches.getD [])) branch) &&
  !(optTruthy cfg.no_branches && reSearch (joinBar (cfg.no_branches.getD [])) branch) &&
  !afterSkip cfg.after_date authordate &&
  !beforeSkip cfg.before_date authordate

/-- `GitTracker.track`, restricted to its observable branch admission: the
(branch, authordate) pairs that reach the `yield` (and hence proceed to
`_track_branch`). -/
def track (reSearch : String → String → Bool) (cfg : TrackerConfig)
    (branchList : List (String × Int)) : List (String × Int) :=
  branchList.filter (fun bd => branchAdmitted reSearch cfg bd.1 bd.2)

/-- The per-file admission test of `GitTracker._track_branch`. -/
def fileAdmitted (reSearch : String → String → Bool) (cfg : TrackerConfig)
    (file_path : String) : Bool :=
  !(optTruthy cfg.files && !reSearch (joinBar (cfg.files.getD [])) file_path) &&
  !(optTruthy cfg.no_files && reSearch (joinBar (cfg.no_files.getD [])) file_path)

/-- `GitTracker._track_branch`, restricted to its observable file list: the
merge-base of `<remote>/<branch>` with `<remote>/master` is computed, the
files differing between the branch tip and that merge-base are listed, and
those passing the file filters are yielded.  The two git queries are
parameters of the model. -/
def track_branch (reSearch : String → String → Bool)
    (get_merge_base : String → String → String)
    (get_diff_files : String → String → List String)
    (cfg : TrackerConfig) (branch : String) : List String :=
  let bf := branch_full cfg.remote branch
  let mf := master_full cfg.remote
  let merge_base := get_merge_base bf mf
  let diff_files := get_diff_files bf merge_base
  diff_files.filter (fileAdmitted reSearch cfg)

/-! ## Operational trace of a full run

For the error-surfacing claim the order of backend invocations matters, so
the walk is also modelled as the sequence of events produced when the
result stream is consumed to exhaustion (as `__main__` does via
`GitReporter.display`).  `compileOk p` states whether `re.compile(p,
re.IGNORECASE)` succeeds; a failed compilation raises, aborting the run, so
the trace ends at its `compileError` event. -/

inductive GitEvent
  | getBranches (remote : String)
  | getMergeBase (ref1 ref2 : String)
  | getDiffFiles (ref1 ref2 : String)
  | getBlameFile (rev filepath : String)
  | compileError (pat : String)
  deriving DecidableEq

/-- Backend responses used by the trace model. -/
structure GitBackend where
  branches : List (String × Int)
  merge_base : String → String → String
  diff_files : String → String → List String

/-- Events of `_track_file`: blame the branch side, then the master side
(lines 193-194). -/
def fileTrace (cfg : TrackerConfig) (branch file_path : String) : List GitEvent :=
  [GitEvent.getBlameFile (branch_full cfg.remote branch) file_path,
   GitEvent.getBlameFile (master_full cfg.remote) file_path]

/-- Events of one `_track_branch` generator run after its two file-pattern
compilations succeeded. -/
def branchBodyTrace (reSearch : String → String → Bool) (backend : GitBackend)
    (cfg : TrackerConfig) (branch : String) : List GitEvent :=
  let bf := branch_full cfg.remote branch
  let mf := master_full cfg.remote
  let mb := backend.merge_base bf mf
  GitEvent.getMergeBase bf mf :: GitEvent.getDiffFiles bf mb ::
    ((backend.diff_files bf mb).filter (fileAdmitted reSearch cfg)).flatMap
      (fileTrace cfg branch)

/-- Consumption of the admitted branches in order: each `_track_branch`
generator first compiles the file include and exclude patterns (lines
173-174); a compile failure raises out of the whole run. -/
def runBranches (compileOk : String → Bool) (reSearch : String → String → Bool)
    (backend : GitBackend) (cfg : TrackerConfig) :
    List (String × Int) → List GitEvent
  | [] => []
  | bd :: rest =>
    if compileOk (joinBar (cfg.files.getD [])) = false then
      [GitEvent.compileError (joinBar (cfg.files.getD []))]
    else if compileOk (joinBar (cfg.no_files.getD [])) = false then
      [GitEvent.compileError (joinBar (cfg.no_files.getD []))]
    else
      branchBodyTrace reSearch backend cfg bd.1 ++
        runBranches compileOk reSearch backend cfg rest

/-- The event trace of a fully consumed run: `track()` (a generator, whose
body runs on first demand) compiles the two branch patterns (lines
151-152), lists branches, and drives `_track_branch` for each admitted
branch. -/
def trackTrace (compileOk : String → Bool) (reSearch : String → String → Bool)
    (backend : GitBackend) (cfg : TrackerConfig) : List GitEvent :=
  if compileOk (joinBar (cfg.branches.getD [])) = false then
    [GitEvent.compileError (joinBar (cfg.branches.getD []))]
  else if compileOk (joinBar (cfg.no_branches.getD [])) = false then
    [GitEvent.compileError (joinBar (cfg.no_branches.getD []))]
  else
    GitEvent.getBranches cfg.remote ::
      runBranches compileOk reSearch backend cfg
        (backend.branches.filter (fun bd => branchAdmitted reSearch cfg bd.1 bd.2))

/-! ## Specification predicates -/

/-- A line recognized inside a partially filled block: one of the eleven
keyword forms, in source order. -/
def keywordLine (line : String) : Bool :=
  pyStartsWith line "author " || pyStartsWith line "author-mail " ||
  pyStartsWith line "author-time " || pyStartsWith line "author-tz " ||
  pyStartsWith line "committer " || pyStartsWith line "committer-mail " ||
  pyStartsWith line "committer-time " || pyStartsWith line "committer-tz " ||
  pyStartsWith line "summary " || pyStartsWith line "filename " ||
  pyStartsWith line "previous "

/-- A line the parser consumes without error while a record is in progress:
a keyword line or a tab-led content line. -/
def recognizedLine (line : String) : Bool :=
  keywordLine line || pyStartsWith line "\t"

/-- One block of a well-formed blame input: a header line, keyword metadata
lines, one tab-led content line. -/
structure WFBlock where
  header : String
  metas : List String
  contentLine : String

/-- Well-formedness of one block: the header has at least the three tokens
the parser indexes, every metadata line is a keyword line, and the content
line starts with a tab. -/
def WFBlock.wf (blk : WFBlock) : Prop :=
  3 ≤ (pySplit blk.header).length ∧ (∀ m ∈ blk.metas, keywordLine m = true) ∧
  pyStartsWith blk.contentLine "\t" = true

/-- The line sequence of a sequence of blocks. -/
def renderBlocks (bs : List WFBlock) : List String :=
  bs.flatMap (fun blk => blk.header :: (blk.metas ++ [blk.contentLine]))

/-- The ranges selected by `f1`/`f2` tile the interval from `lo` to `hi`:
each opcode's range starts exactly where the previous one ended (no gap, no
overlap, left to right), is non-reversed, and the last one ends at `hi`. -/
def covers (f1 f2 : Opcode → Nat) : Nat → Nat → List Opcode → Prop
  | lo, hi, [] => lo = hi
  | lo, hi, op :: rest => f1 op = lo ∧ lo ≤ f2 op ∧ covers f1 f2 (f2 op) hi rest

/-- Matching blocks ordered and chained inside the region ending at
`(ahi, bhi)`, starting no earlier than `(lo, bo)`. -/
def BlocksChainIn (ahi bhi : Nat) : Nat → Nat → List MatchBlock → Prop
  | _, _, [] => True
  | lo, bo, m :: rest =>
    lo ≤ m.a ∧ bo ≤ m.b ∧ m.a + m.size ≤ ahi ∧ m.b + m.size ≤ bhi ∧
    BlocksChainIn ahi bhi (m.a + m.size) (m.b + m.size) rest

/-- Matching blocks chained from `(i, j)` and ending exactly at `(la, lb)`
(the shape `get_opcodes` consumes: the sentinel is the last block). -/
def BlocksLead (la lb : Nat) : Nat → Nat → List MatchBlock → Prop
  | i, j, [] => i = la ∧ j = lb
  | i, j, m :: rest => i ≤ m.a ∧ j ≤ m.b ∧ BlocksLead la lb (m.a + m.size) (m.b + m.size) rest

/-- Invariant of the `j2len` dict during `find_longest_match`: a nonzero
entry at `j` records a match chain inside `[blo, bhi)` whose length is
bounded by the number of processed `a`-positions (`bound`) and by
`j + 1 - blo`. -/
def J2LenInv (blo bhi bound : Nat) (m : Nat → Nat) : Prop :=
  ∀ j, m j ≠ 0 → blo ≤ j ∧ j < bhi ∧ m j ≤ bound ∧ m j ≤ j + 1 - blo

/-- Invariant of the best triple during `find_longest_match`: a nonzero best
lies inside the region; a zero best is still the initial `(alo, blo, 0)`. -/
def BestInv (alo ahi blo bhi : Nat) (s : MatchBlock) : Prop :=
  (0 < s.size → alo ≤ s.a ∧ s.a + s.size ≤ ahi ∧ blo ≤ s.b ∧ s.b + s.size ≤ bhi) ∧
  (s.size = 0 → s.a = alo ∧ s.b = blo)

/-- The expensive backend events: per-branch and per-file git queries. -/
def expensiveEvent : GitEvent → Bool
  | GitEvent.getMergeBase _ _ => true
  | GitEvent.getDiffFiles _ _ => true
  | GitEvent.getBlameFile _ _ => true
  | _ => false

/-! ## Concrete fixtures for witnesses and counterexamples -/

/-- A regex engine accepting everything (patterns unused in the fixtures
that take it). -/
def rsAll : String → String → Bool := fun _ _ => true

/-- An engine matching exactly the pattern `"feature"`, as a literal. -/
def rsFeature : String → String → Bool :=
  fun p s => (p == "feature") && (s == "origin-feature-1")

/-- A merge-base oracle distinguishing a master mainline from a main
mainline. -/
def gmb0 : String → String → String :=
  fun _ target => if target = "origin/master" then "baseM" else "baseN"

/-- A diff-files oracle distinguishing the two merge bases of `gmb0`. -/
def gdf0 : String → String → List String :=
  fun _ mb => if mb = "baseM" then ["fileM"] else ["fileN"]

/-- A compiler rejecting exactly the pattern `"("`. -/
def compileOk0 : String → Bool := fun p => p != "("

/-- A compiler rejecting every pattern (in particular the empty joined
pattern of an absent filter list). -/
def compileNone : String → Bool := fun _ => false

/-- A one-branch backend. -/
def backend0 : GitBackend :=
  { branches := [("b1", 0)], merge_base := fun _ _ => "mb", diff_files := fun _ _ => [] }

/-- A mainline-side record owned by `<a@x>`. -/
def recA : Blockinfo := { authorMail := some "<a@x>", content := some "foo()" }

/-- A branch-side record owned by `<b@x>`. -/
def recB : Blockinfo := { authorMail := some "<b@x>", content := some "bar()" }

/-! ## Parser theorems -/

/-- C10: whenever the record accumulator is empty, every input line —
whatever its content — is consumed as a header line: parsing continues with
`hash` and `lineno` taken from whitespace tokens 0 and 2 of that line, and a
line with fewer than three tokens raises `IndexError` during header-field
extraction, never the unrecognized-line error. -/
theorem parse_empty_accumulator_is_header (line : String) (rest : List String) :
    parseBlameAux (line :: rest) Blockinfo.empty =
      (match pySplit line with
       | info0 :: _ :: info2 :: _ =>
         parseBlameAux rest
           { Blockinfo.empty with hash := some info0, lineno := some info2 }
       | _ => Except.error ParseError.indexError) := rfl

/-- C4: a line met while a record is in progress (non-empty accumulator)
that matches none of the eleven keyword forms and does not start with a tab
makes the parser raise the unrecognized-line fatal error, so no record
sequence is produced and the line is not silently skipped. -/
theorem parse_unrecognized_line_fatal (b : Blockinfo) (line : String)
    (rest : List String) (hb : b.isEmpty = false) (hl : recognizedLine line = false) :
    parseBlameAux (line :: rest) b = Except.error (ParseError.unexpectedLine line) := by
  simp only [recognizedLine, keywordLine, Bool.or_eq_false_iff] at hl
  obtain ⟨⟨⟨⟨⟨⟨⟨⟨⟨⟨⟨h1, h2⟩, h3⟩, h4⟩, h5⟩, h6⟩, h7⟩, h8⟩, h9⟩, h10⟩, h11⟩, h12⟩ := hl
  simp [parseBlameAux, hb, h1, h2, h3, h4, h5, h6, h7, h8, h9, h10, h11, h12]

/-- Witness for C4 at a concrete unrecognized line and in-progress record. -/
theorem parse_unrecognized_line_fatal_witness :
    parseBlameAux ["zzz"] { hash := some "h" } =
      Except.error (ParseError.unexpectedLine "zzz") :=
  parse_unrecognized_line_fatal { hash := some "h" } "zzz" [] (by decide) (by decide)

/-- Processing a line with an empty accumulator: the header branch fires
regardless of the line's content. -/
theorem parseBlameAux_header (line : String) (rest : List String) :
    parseBlameAux (line :: rest) Blockinfo.empty =
      (match pySplit line with
       | info0 :: _ :: info2 :: _ =>
         parseBlameAux rest
           { Blockinfo.empty with hash := some info0, lineno := some info2 }
       | _ => Except.error ParseError.indexError) := rfl

/-- A line starting with a tab is a tab followed by the rest of its
characters. -/
theorem startsWith_tab_shape (line : String) (h : pyStartsWith line "\t" = true) :
    ∃ cs, line.data = '\t' :: cs := by
  obtain ⟨data⟩ := line
  cases data with
  | nil => exact absurd h (by decide)
  | cons c cs =>
    refine ⟨cs, ?_⟩
    have h' : (('\t' == c) && List.isPrefixOf ([] : List Char) cs) = true := h
    have hc : ('\t' == c) = true := by simpa using h'
    have : '\t' = c := eq_of_beq hc
    rw [← this]

/-- A tab-led line matches none of the eleven keyword forms (they all start
with a letter). -/
theorem tab_line_not_keyword (line : String) (h : pyStartsWith line "\t" = true) :
    keywordLine line = false := by
  obtain ⟨cs, hcs⟩ := startsWith_tab_shape line h
  obtain ⟨data⟩ := line
  simp only at hcs
  subst hcs
  rfl

/-- Processing one keyword line with a non-empty accumulator: some field is
stored, the accumulator stays non-empty, and the content field is
untouched. -/
theorem parseBlameAux_keyword_step (line : String) (ls : List String) (b : Blockinfo)
    (hb : b.isEmpty = false) (hk : keywordLine line = true) :
    ∃ b', parseBlameAux (line :: ls) b = parseBlameAux ls b' ∧
      b'.isEmpty = false ∧ b'.content = b.content := by
  by_cases h1 : pyStartsWith line "author " = true
  · exact ⟨{ b with author := some (pyDrop line "author ".length) },
      by simp [parseBlameAux, hb, h1], by simp [Blockinfo.isEmpty], rfl⟩
  by_cases h2 : pyStartsWith line "author-mail " = true
  · exact ⟨{ b with authorMail := some (pyDrop line "author-mail ".length) },
      by simp [parseBlameAux, hb, h1, h2], by simp [Blockinfo.isEmpty], rfl⟩
  by_cases h3 : pyStartsWith line "author-time " = true
  · exact ⟨{ b with authorTime := some (pyDrop line "author-time ".length) },
      by simp [parseBlameAux, hb, h1, h2, h3], by simp [Blockinfo.isEmpty], rfl⟩
  by_cases h4 : pyStartsWith line "author-tz " = true
  · exact ⟨{ b with authorTz := some (pyDrop line "author-tz ".length) },
      by simp [parseBlameAux, hb, h1, h2, h3, h4], by simp [Blockinfo.isEmpty], rfl⟩
  by_cases h5 : pyStartsWith line "committer " = true
  · exact ⟨{ b with committer := some (pyDrop line "committer ".length) },
      by simp [parseBlameAux, hb, h1, h2, h3, h4, h5], by simp [Blockinfo.isEmpty], rfl⟩
  by_cases h6 : pyStartsWith line "committer-mail " = true
  · exact ⟨{ b with committerMail := some (pyDrop line "committer-mail ".length) },
      by simp [parseBlameAux, hb, h1, h2, h3, h4, h5, h6], by simp [Blockinfo.isEmpty], rfl⟩
  by_cases h7 : pyStartsWith line "committer-time " = true
  · exact ⟨{ b with committerTime := some (pyDrop line "committer-time ".length) },
      by simp [parseBlameAux, hb, h1, h2, h3, h4, h5, h6, h7],
      by simp [Blockinfo.isEmpty], rfl⟩
  by_cases h8 : pyStartsWith line "committer-tz " = true
  · exact ⟨{ b with committerTz := some (pyDrop line "committer-tz ".length) },
      by simp [parseBlameAux, hb, h1, h2, h3, h4, h5, h6, h7, h8],
      by simp [Blockinfo.isEmpty], rfl⟩
  by_cases h9 : pyStartsWith line "summary " = true
  · exact ⟨{ b with summary := some (pyDrop line "summary ".length) },
      by simp [parseBlameAux, hb, h1, h2, h3, h4, h5, h6, h7, h8, h9],
      by simp [Blockinfo.isEmpty], rfl⟩
  by_cases h10 : pyStartsWith line "filename " = true
  · exact ⟨{ b with filename := some (pyDrop line "filename ".length) },
      by simp [parseBlameAux, hb, h1, h2, h3, h4, h5, h6, h7, h8, h9, h10],
      by simp [Blockinfo.isEmpty], rfl⟩
  by_cases h11 : pyStartsWith line "previous " = true
  · exact ⟨{ b with previous := some (pyDrop line "previous ".length) },
      by simp [parseBlameAux, hb, h1, h2, h3, h4, h5, h6, h7, h8, h9, h10, h11],
      by simp [Blockinfo.isEmpty], rfl⟩
  exact absurd hk (by simp [keywordLine, h1, h2, h3, h4, h5, h6, h7, h8, h9, h10, h11])

/-- Processing a run of keyword lines with a non-empty accumulator. -/
theorem parseBlameAux_metas (metas : List String) : ∀ (ls : List String) (b : Blockinfo),
    b.isEmpty = false → (∀ m ∈ metas, keywordLine m = true) →
    ∃ b', parseBlameAux (metas ++ ls) b = parseBlameAux ls b' ∧
      b'.isEmpty = false ∧ b'.content = b.content := by
  induction metas with
  | nil => exact fun ls b hb _ => ⟨b, rfl, hb, rfl⟩
  | cons m metas ih =>
    intro ls b hb hm
    obtain ⟨b1, he1, hb1, hc1⟩ :=
      parseBlameAux_keyword_step m (metas ++ ls) b hb (hm m (by simp))
    obtain ⟨b2, he2, hb2, hc2⟩ := ih ls b1 hb1 (fun x hx => hm x (by simp [hx]))
    exact ⟨b2, by rw [List.cons_append, he1, he2], hb2, by rw [hc2, hc1]⟩

/-- Processing the tab-led content line with a non-empty accumulator: the
record is sealed with the tab stripped from the stored content, and the
accumulator resets to empty. -/
theorem parseBlameAux_contentline (line : String) (ls : List String) (b : Blockinfo)
    (hb : b.isEmpty = false) (ht : pyStartsWith line "\t" = true) :
    parseBlameAux (line :: ls) b =
      (match parseBlameAux ls Blockinfo.empty with
       | Except.ok recs =>
         Except.ok ({ b with content := some (pyDrop line "\t".length) } :: recs)
       | Except.error e => Except.error e) := by
  have hk := tab_line_not_keyword line ht
  simp only [keywordLine, Bool.or_eq_false_iff] at hk
  obtain ⟨⟨⟨⟨⟨⟨⟨⟨⟨⟨h1, h2⟩, h3⟩, h4⟩, h5⟩, h6⟩, h7⟩, h8⟩, h9⟩, h10⟩, h11⟩ := hk
  simp [parseBlameAux, hb, h1, h2, h3, h4, h5, h6, h7, h8, h9, h10, h11, ht]

/-- Parsing one well-formed block before further lines: exactly one record
is sealed, holding the tab-stripped content line. -/
theorem parseBlameAux_wfblock (blk : WFBlock) (ls : List String) (hw : blk.wf) :
    ∃ r : Blockinfo, r.content = some (pyDrop blk.contentLine "\t".length) ∧
      parseBlameAux (blk.header :: (blk.metas ++ blk.contentLine :: ls)) Blockinfo.empty =
        (match parseBlameAux ls Blockinfo.empty with
         | Except.ok recs => Except.ok (r :: recs)
         | Except.error e => Except.error e) := by
  obtain ⟨hh, hm, hc⟩ := hw
  rcases hsp : pySplit blk.header with _ | ⟨t0, _ | ⟨t1, _ | ⟨t2, ts⟩⟩⟩
  · rw [hsp] at hh; simp at hh
  · rw [hsp] at hh; simp at hh
  · rw [hsp] at hh; simp at hh
  · have hstep :
        parseBlameAux (blk.header :: (blk.metas ++ blk.contentLine :: ls)) Blockinfo.empty =
          parseBlameAux (blk.metas ++ blk.contentLine :: ls)
            { Blockinfo.empty with hash := some t0, lineno := some t2 } := by
      simp [parseBlameAux_header, hsp]
    have hbne : Blockinfo.isEmpty
        { Blockinfo.empty with hash := some t0, lineno := some t2 } = false := by
      simp [Blockinfo.isEmpty]
    obtain ⟨b2, he2, hb2, hc2⟩ :=
      parseBlameAux_metas blk.metas (blk.contentLine :: ls)
        { Blockinfo.empty with hash := some t0, lineno := some t2 } hbne hm
    refine ⟨{ b2 with content := some (pyDrop blk.contentLine "\t".length) }, rfl, ?_⟩
    rw [hstep, he2, parseBlameAux_contentline blk.contentLine ls b2 hb2 hc]

/-- C2: for every well-formed blame input — a sequence of blocks, each a
header line with at least three tokens, keyword metadata lines, and exactly
one tab-led content line — the parser succeeds with one record per block in
input order, and the stored content fields are exactly the input's tab-led
lines with the leading tab stripped, in the original order. -/
theorem parse_wf_roundtrip (bs : List WFBlock) (hw : ∀ blk ∈ bs, blk.wf) :
    ∃ recs : List Blockinfo,
      parseBlame (renderBlocks bs) = Except.ok recs ∧
      recs.length = bs.length ∧
      recs.map (fun r => r.content) =
        bs.map (fun blk => some (pyDrop blk.contentLine "\t".length)) := by
  induction bs with
  | nil => exact ⟨[], rfl, rfl, rfl⟩
  | cons blk bs ih =>
    obtain ⟨recs, hp, hl, hc⟩ := ih (fun x hx => hw x (by simp [hx]))
    obtain ⟨r, hr, hb⟩ := parseBlameAux_wfblock blk (renderBlocks bs) (hw blk (by simp))
    refine ⟨r :: recs, ?_, by simp [hl], by simp [hr, hc]⟩
    have hrender : renderBlocks (blk :: bs) =
        blk.header :: (blk.metas ++ blk.contentLine :: renderBlocks bs) := by
      simp [renderBlocks]
    rw [parseBlame, hrender, hb]
    rw [parseBlame] at hp
    rw [hp]

/-- Witness for C2 on a concrete two-block input. -/
theorem parse_wf_roundtrip_witness :
    ∃ recs : List Blockinfo,
      parseBlame (renderBlocks
          [WFBlock.mk "abc 1 1" ["author-mail <a@x>"] "\tfoo",
           WFBlock.mk "def 2 2" [] "\tbar"]) = Except.ok recs ∧
      recs.length =
        ([WFBlock.mk "abc 1 1" ["author-mail <a@x>"] "\tfoo",
          WFBlock.mk "def 2 2" [] "\tbar"] : List WFBlock).length ∧
      recs.map (fun r => r.content) =
        ([WFBlock.mk "abc 1 1" ["author-mail <a@x>"] "\tfoo",
          WFBlock.mk "def 2 2" [] "\tbar"]).map
          (fun blk => some (pyDrop blk.contentLine "\t".length)) :=
  parse_wf_roundtrip
    [WFBlock.mk "abc 1 1" ["author-mail <a@x>"] "\tfoo",
     WFBlock.mk "def 2 2" [] "\tbar"]
    (by intro blk hblk; fin_cases hblk <;> exact ⟨by decide, by decide, by decide⟩)

/-! ## Detector theorems -/

/-- C1: for the record lists of a tracked file (each record carrying its
author-mail key, as the Python dict accesses require), the walker yields
exactly the non-`equal` opcode blocks whose mainline author-email set is not
a subset of the branch author-email set, paired as the two record slices;
`equal` blocks are always skipped. -/
theorem track_file_yield_iff (bm bb : List Blockinfo)
    (_hm : ∀ r ∈ bm, r.authorMail ≠ none) (_hb : ∀ r ∈ bb, r.authorMail ≠ none) :
    track_file bm bb =
      (get_opcodes (bm.map (fun x => pyStrip (contentOf x)))
          (bb.map (fun x => pyStrip (contentOf x)))).filterMap (fun op =>
        if op.tag ≠ Tag.equal ∧
            ¬ authorsOf (pySlice bm op.a1 op.a2) ⊆ authorsOf (pySlice bb op.b1 op.b2) then
          some (pySlice bm op.a1 op.a2, pySlice bb op.b1 op.b2)
        else none) := by
  simp only [track_file]
  congr 1
  funext op
  by_cases ht : op.tag = Tag.equal
  · simp [ht]
  · by_cases hsub :
      authorsOf (pySlice bm op.a1 op.a2) ⊆ authorsOf (pySlice bb op.b1 op.b2)
    · simp [ht, hsub, Finset.sdiff_eq_empty_iff_subset]
    · simp [ht, hsub, Finset.sdiff_eq_empty_iff_subset]

/-- Witness for C1 on a one-line replace owned by different authors. -/
theorem track_file_yield_iff_witness :
    track_file [recA] [recB] =
      (get_opcodes ([recA].map (fun x => pyStrip (contentOf x)))
          ([recB].map (fun x => pyStrip (contentOf x)))).filterMap (fun op =>
        if op.tag ≠ Tag.equal ∧
            ¬ authorsOf (pySlice [recA] op.a1 op.a2) ⊆
                authorsOf (pySlice [recB] op.b1 op.b2) then
          some (pySlice [recA] op.a1 op.a2, pySlice [recB] op.b1 op.b2)
        else none) :=
  track_file_yield_iff [recA] [recB] (by decide) (by decide)

/-- C9: every violation block yielded by the walker has a non-empty mainline
record slice: yielding requires the mainline-minus-branch author set to be
non-empty, which fails when the mainline slice is empty, so a pure insert is
never yielded. -/
theorem track_file_yield_mainline_nonempty (bm bb : List Blockinfo)
    (p : List Blockinfo × List Blockinfo) (hp : p ∈ track_file bm bb) : p.1 ≠ [] := by
  simp only [track_file] at hp
  rw [List.mem_filterMap] at hp
  obtain ⟨op, _, hop⟩ := hp
  by_cases ht : op.tag = Tag.equal
  · simp [ht] at hop
  · by_cases hd :
      authorsOf (pySlice bm op.a1 op.a2) \ authorsOf (pySlice bb op.b1 op.b2) = ∅
    · simp [ht, hd] at hop
    · simp only [ht, if_neg, hd, ite_false, Option.some.injEq] at hop
      cases hop
      intro h0
      apply hd
      have he : authorsOf (pySlice bm op.a1 op.a2) = ∅ := by
        rw [show pySlice bm op.a1 op.a2 = [] from h0]
        rfl
      rw [he]
      exact Finset.empty_sdiff _

/-- Witness for C9: a concrete yielded block with its non-empty mainline
slice. -/
theorem track_file_yield_mainline_nonempty_witness :
    ([recA], [recB]) ∈ track_file [recA] [recB] ∧ ([recA] : List Blockinfo) ≠ [] :=
  ⟨by decide,
   track_file_yield_mainline_nonempty [recA] [recB] ([recA], [recB]) (by decide)⟩

/-! ## Aligner: empty-side behavior -/

/-- `b2j` of the empty sequence is empty everywhere. -/
theorem b2j_nil (elt : String) : b2j [] elt = [] := by
  simp [b2j, b2jAll]

/-- When `b2j` is empty everywhere the outer loop never updates the best
triple. -/
theorem flmOuter_empty_b2j (a : List String) (b2jf : String → List Nat)
    (hb : ∀ elt, b2jf elt = []) (blo bhi : Nat) :
    ∀ (is : List Nat) (j2len : Nat → Nat) (best : MatchBlock),
      flmOuter a b2jf blo bhi is j2len best = best := by
  intro is
  induction is with
  | nil => intro _ _; rfl
  | cons i is ih =>
    intro j2len best
    simp only [flmOuter, hb, flmInner]
    exact ih _ _

/-- Matching an empty `a` region finds nothing. -/
theorem find_longest_match_nil_a (b : List String) (bhi : Nat) :
    find_longest_match [] b 0 0 0 bhi = MatchBlock.mk 0 0 0 := rfl

/-- Matching against an empty `b` finds nothing. -/
theorem find_longest_match_nil_b (a : List String) (ahi : Nat) :
    find_longest_match a [] 0 ahi 0 0 = MatchBlock.mk 0 0 0 := by
  simp only [find_longest_match]
  rw [flmOuter_empty_b2j a (b2j []) b2j_nil 0 0]
  have hlo : flmExtendLo a [] 0 0 ((MatchBlock.mk 0 0 0).a - 0) (MatchBlock.mk 0 0 0)
      = MatchBlock.mk 0 0 0 := rfl
  rw [hlo]
  cases hfuel : ahi - ((MatchBlock.mk 0 0 0).a + (MatchBlock.mk 0 0 0).size) with
  | zero => rfl
  | succ n =>
    simp only [flmExtendHi]
    rw [if_neg]
    rintro ⟨-, h2, -⟩
    simp at h2

/-- Aligning the empty sequence against a non-empty one yields one insert
opcode spanning the whole non-empty side. -/
theorem get_opcodes_nil_left (bs : List String) (h : bs ≠ []) :
    get_opcodes [] bs = [Opcode.mk Tag.insert 0 0 0 bs.length] := by
  cases bs with
  | nil => exact absurd rfl h
  | cons x xs =>
    unfold get_opcodes get_matching_blocks
    simp only [List.length_nil, List.length_cons, Nat.zero_add]
    have haux : matchingBlocksAux [] (x :: xs) (xs.length + 1) 0 0 0 (xs.length + 1)
        = [] := by
      simp only [matchingBlocksAux]
      rw [find_longest_match_nil_a]
      rfl
    rw [haux]
    show opcodesLoop 0 0 [MatchBlock.mk 0 (xs.length + 1) 0]
      = [Opcode.mk Tag.insert 0 0 0 (xs.length + 1)]
    simp only [opcodesLoop]
    rw [if_neg, if_neg, if_pos]
    · rfl
    · omega
    · omega
    · rintro ⟨h1, -⟩
      omega

/-- Aligning a non-empty sequence against the empty one yields one delete
opcode spanning the whole non-empty side. -/
theorem get_opcodes_nil_right (as : List String) (h : as ≠ []) :
    get_opcodes as [] = [Opcode.mk Tag.delete 0 as.length 0 0] := by
  cases as with
  | nil => exact absurd rfl h
  | cons x xs =>
    unfold get_opcodes get_matching_blocks
    simp only [List.length_nil, List.length_cons, Nat.add_zero]
    have haux : matchingBlocksAux (x :: xs) [] (xs.length + 1) 0 (xs.length + 1) 0 0
        = [] := by
      simp only [matchingBlocksAux]
      rw [find_longest_match_nil_b]
      rfl
    rw [haux]
    show opcodesLoop 0 0 [MatchBlock.mk (xs.length + 1) 0 0]
      = [Opcode.mk Tag.delete 0 (xs.length + 1) 0 0]
    simp only [opcodesLoop]
    rw [if_neg, if_pos]
    · rfl
    · omega
    · rintro ⟨-, h2⟩
      omega

/-- A file absent on the mainline side: the whole-branch insert block is
never a violation (the empty mainline author set is a subset of every
set). -/
theorem track_file_nil_master (bb : List Blockinfo) : track_file [] bb = [] := by
  cases bb with
  | nil => rfl
  | cons y ys =>
    simp only [track_file, List.map_nil, List.map_cons]
    rw [get_opcodes_nil_left _ (by simp)]
    simp [pySlice, authorsOf, Finset.empty_sdiff]

/-- C5: the backend's file-absent outcome (return code 128) and the empty
input both parse to the empty record sequence; aligning an empty side
against a non-empty side classifies the whole non-empty side as a single
insert (or delete) block; and when the mainline side is the empty one the
walker reports nothing. -/
theorem file_absent_empty_side (a : List String) (bb : List Blockinfo) (ha : a ≠ []) :
    get_blame_file (GitCmdResult.err 128) = Except.ok [] ∧
    parseBlame [] = Except.ok [] ∧
    get_opcodes [] a = [Opcode.mk Tag.insert 0 0 0 a.length] ∧
    get_opcodes a [] = [Opcode.mk Tag.delete 0 a.length 0 0] ∧
    track_file [] bb = [] :=
  ⟨rfl, rfl, get_opcodes_nil_left a ha, get_opcodes_nil_right a ha,
   track_file_nil_master bb⟩

/-- Witness for C5 at a concrete one-line file. -/
theorem file_absent_empty_side_witness :
    get_blame_file (GitCmdResult.err 128) = Except.ok [] ∧
    parseBlame [] = Except.ok [] ∧
    get_opcodes [] ["x"] = [Opcode.mk Tag.insert 0 0 0 (["x"] : List String).length] ∧
    get_opcodes ["x"] [] = [Opcode.mk Tag.delete 0 (["x"] : List String).length 0 0] ∧
    track_file [] [recB] = [] :=
  file_absent_empty_side ["x"] [recB] (by decide)

/-! ## Aligner: the partition property -/

/-- The inner loop preserves the `j2len` and best-triple invariants. -/
theorem flmInner_inv (alo ahi blo bhi i : Nat) (hi1 : alo ≤ i) (hi2 : i < ahi)
    (j2len : Nat → Nat) (hj : J2LenInv blo bhi (i - alo) j2len) :
    ∀ (js : List Nat) (newj2len : Nat → Nat) (best : MatchBlock),
      J2LenInv blo bhi (i - alo + 1) newj2len → BestInv alo ahi blo bhi best →
      J2LenInv blo bhi (i - alo + 1) (flmInner j2len blo bhi i js newj2len best).1 ∧
      BestInv alo ahi blo bhi (flmInner j2len blo bhi i js newj2len best).2 := by
  intro js
  induction js with
  | nil => exact fun newj2len best hn hb => ⟨hn, hb⟩
  | cons j js ih =>
    intro newj2len best hn hb
    simp only [flmInner]
    split
    · exact ih newj2len best hn hb
    · split
      · exact ⟨hn, hb⟩
      · rename_i hjblo hjbhi
        have hblo : blo ≤ j := by omega
        have hbhi : j < bhi := by omega
        have hk1 : (if j = 0 then 0 else j2len (j - 1)) + 1 ≤ i - alo + 1 := by
          split
          · omega
          · rename_i hj0
            by_cases hz : j2len (j - 1) = 0
            · rw [hz]
              omega
            · have := (hj (j - 1) hz).2.2.1
              omega
        have hk2 : (if j = 0 then 0 else j2len (j - 1)) + 1 ≤ j + 1 - blo := by
          split
          · rename_i hj0
            subst hj0
            omega
          · rename_i hj0
            by_cases hz : j2len (j - 1) = 0
            · rw [hz]
              omega
            · have h4 := (hj (j - 1) hz).2.2.2
              have hb3 := (hj (j - 1) hz).1
              omega
        refine ih _ _ (fun x hx => ?_) ?_
        · by_cases hxj : x = j
          · subst hxj
            simp only [if_pos rfl] at hx ⊢
            exact ⟨hblo, hbhi, hk1, hk2⟩
          · simp only [if_neg hxj] at hx ⊢
            exact hn x hx
        · by_cases hlt : best.size < (if j = 0 then 0 else j2len (j - 1)) + 1
          · rw [if_pos hlt]
            refine ⟨fun _ => ?_, fun h0 => ?_⟩
            · dsimp only
              refine ⟨by omega, by omega, by omega, by omega⟩
            · dsimp only at h0
              omega
          · rw [if_neg hlt]
            exact hb

/-- The outer loop preserves the best-triple invariant. -/
theorem flmOuter_inv (a : List String) (b2jf : String → List Nat)
    (alo ahi blo bhi : Nat) :
    ∀ (n i : Nat) (j2len : Nat → Nat) (best : MatchBlock), alo ≤ i → i + n ≤ ahi →
      J2LenInv blo bhi (i - alo) j2len → BestInv alo ahi blo bhi best →
      BestInv alo ahi blo bhi (flmOuter a b2jf blo bhi (List.range' i n) j2len best) := by
  intro n
  induction n with
  | zero => exact fun i j2len best _ _ _ hb => hb
  | succ n ih =>
    intro i j2len best hi1 hi2 hj hb
    rw [List.range'_succ]
    simp only [flmOuter]
    have h := flmInner_inv alo ahi blo bhi i hi1 (by omega) j2len hj
      (b2jf (a.getD i "")) (fun _ => 0) best (fun x hx => absurd rfl hx) hb
    have hrw : i - alo + 1 = i + 1 - alo := by omega
    rw [hrw] at h
    exact ih (i + 1) _ _ (by omega) (by omega) h.1 h.2

/-- The first extension loop preserves the best-triple invariant. -/
theorem flmExtendLo_inv (a b : List String) (alo ahi blo bhi : Nat) :
    ∀ (fuel : Nat) (s : MatchBlock), BestInv alo ahi blo bhi s →
      BestInv alo ahi blo bhi (flmExtendLo a b alo blo fuel s) := by
  intro fuel
  induction fuel with
  | zero => exact fun s h => h
  | succ fuel ih =>
    intro s hs
    simp only [flmExtendLo]
    split
    · rename_i hcond
      obtain ⟨hc1, hc2, -⟩ := hcond
      apply ih
      have hbounds : alo ≤ s.a ∧ s.a + s.size ≤ ahi ∧ blo ≤ s.b ∧ s.b + s.size ≤ bhi := by
        rcases Nat.eq_zero_or_pos s.size with h0 | hpos
        · obtain ⟨ha', hb'⟩ := hs.2 h0
          omega
        · exact hs.1 hpos
      refine ⟨fun _ => ?_, fun h0 => ?_⟩
      · dsimp only
        refine ⟨by omega, by omega, by omega, by omega⟩
      · dsimp only at h0
        omega
    · exact hs

/-- The second extension loop preserves the best-triple invariant. -/
theorem flmExtendHi_inv (a b : List String) (alo ahi blo bhi : Nat) :
    ∀ (fuel : Nat) (s : MatchBlock), BestInv alo ahi blo bhi s →
      BestInv alo ahi blo bhi (flmExtendHi a b ahi bhi fuel s) := by
  intro fuel
  induction fuel with
  | zero => exact fun s h => h
  | succ fuel ih =>
    intro s hs
    simp only [flmExtendHi]
    split
    · rename_i hcond
      obtain ⟨hc1, hc2, -⟩ := hcond
      apply ih
      rcases Nat.eq_zero_or_pos s.size with h0 | hpos
      · obtain ⟨ha', hb'⟩ := hs.2 h0
        refine ⟨fun _ => ?_, fun h0' => ?_⟩
        · dsimp only
          refine ⟨by omega, by omega, by omega, by omega⟩
        · dsimp only at h0'
          omega
      · have hbb := hs.1 hpos
        refine ⟨fun _ => ?_, fun h0' => ?_⟩
        · dsimp only
          refine ⟨by omega, by omega, by omega, by omega⟩
        · dsimp only at h0'
          omega
    · exact hs

/-- The best triple returned by `find_longest_match` satisfies the
invariant: when nonzero it lies inside the region. -/
theorem find_longest_match_inv (a b : List String) (alo ahi blo bhi : Nat) :
    BestInv alo ahi blo bhi (find_longest_match a b alo ahi blo bhi) := by
  have hinit : BestInv alo ahi blo bhi (MatchBlock.mk alo blo 0) :=
    ⟨fun h => absurd h (by simp), fun _ => ⟨rfl, rfl⟩⟩
  simp only [find_longest_match]
  apply flmExtendHi_inv
  apply flmExtendLo_inv
  by_cases hle : alo ≤ ahi
  · exact flmOuter_inv a (b2j b) alo ahi blo bhi (ahi - alo) alo (fun _ => 0)
      (MatchBlock.mk alo blo 0) (le_refl alo) (by omega)
      (fun x hx => absurd rfl hx) hinit
  · have h0 : ahi - alo = 0 := by omega
    rw [h0]
    exact hinit

/-- Weakening the start of a block chain. -/
theorem BlocksChainIn_mono (ahi bhi : Nat) :
    ∀ (l : List MatchBlock) (lo bo lo' bo' : Nat),
      BlocksChainIn ahi bhi lo bo l → lo' ≤ lo → bo' ≤ bo →
      BlocksChainIn ahi bhi lo' bo' l := by
  intro l
  cases l with
  | nil => exact fun _ _ _ _ _ _ _ => trivial
  | cons m rest =>
    intro lo bo lo' bo' h h1 h2
    obtain ⟨k1, k2, k3, k4, k5⟩ := h
    exact ⟨by omega, by omega, k3, k4, k5⟩

/-- Concatenating a chain in a subregion with a chain continuing after it. -/
theorem BlocksChainIn_concat (ahi bhi mid midb : Nat) :
    ∀ (L R : List MatchBlock) (lo bo : Nat),
      BlocksChainIn mid midb lo bo L → BlocksChainIn ahi bhi mid midb R →
      mid ≤ ahi → midb ≤ bhi → lo ≤ mid → bo ≤ midb →
      BlocksChainIn ahi bhi lo bo (L ++ R) := by
  intro L
  induction L with
  | nil =>
    intro R lo bo _ hR _ _ h5 h6
    exact BlocksChainIn_mono ahi bhi R mid midb lo bo hR h5 h6
  | cons m L ih =>
    intro R lo bo hL hR h3 h4 h5 h6
    obtain ⟨k1, k2, k3, k4, k5⟩ := hL
    exact ⟨k1, k2, by omega, by omega,
      ih R (m.a + m.size) (m.b + m.size) k5 hR h3 h4 k3 k4⟩

/-- The blocks collected over a region form a chain inside that region. -/
theorem matchingBlocksAux_chain (a b : List String) :
    ∀ (fuel alo ahi blo bhi : Nat),
      BlocksChainIn ahi bhi alo blo (matchingBlocksAux a b fuel alo ahi blo bhi) := by
  intro fuel
  induction fuel with
  | zero => intro alo ahi blo bhi; trivial
  | succ fuel ih =>
    intro alo ahi blo bhi
    simp only [matchingBlocksAux]
    split
    · rename_i hpos
      obtain ⟨h1, h2, h3, h4⟩ := (find_longest_match_inv a b alo ahi blo bhi).1 hpos
      apply BlocksChainIn_concat ahi bhi (find_longest_match a b alo ahi blo bhi).a
        (find_longest_match a b alo ahi blo bhi).b
      · split
        · exact ih alo _ blo _
        · trivial
      · refine ⟨le_refl _, le_refl _, h2, h4, ?_⟩
        split
        · exact ih _ ahi _ bhi
        · trivial
      · omega
      · omega
      · exact h1
      · exact h3
    · trivial

/-- Collapsing adjacent blocks preserves the chain shape. -/
theorem collapseAdjacent_chain (la lb : Nat) :
    ∀ (l : List MatchBlock) (i1 j1 k1 : Nat),
      BlocksChainIn la lb (i1 + k1) (j1 + k1) l → i1 + k1 ≤ la → j1 + k1 ≤ lb →
      BlocksChainIn la lb i1 j1 (collapseAdjacent i1 j1 k1 l) := by
  intro l
  induction l with
  | nil =>
    intro i1 j1 k1 _ h1 h2
    simp only [collapseAdjacent]
    split
    · exact ⟨le_refl _, le_refl _, h1, h2, trivial⟩
    · trivial
  | cons m rest ih =>
    intro i1 j1 k1 h h1 h2
    obtain ⟨k1', k2', k3', k4', k5'⟩ := h
    simp only [collapseAdjacent]
    split
    · rename_i hadj
      obtain ⟨ha1, ha2⟩ := hadj
      apply ih i1 j1 (k1 + m.size)
      · have e1 : i1 + (k1 + m.size) = m.a + m.size := by omega
        have e2 : j1 + (k1 + m.size) = m.b + m.size := by omega
        rw [e1, e2]
        exact k5'
      · omega
      · omega
    · rename_i hnadj
      have hrest := ih m.a m.b m.size k5' k3' k4'
      split
      · rename_i hk1
        refine ⟨le_refl _, le_refl _, h1, h2, ?_⟩
        exact BlocksChainIn_mono la lb _ m.a m.b (i1 + k1) (j1 + k1) hrest k1' k2'
      · rename_i hk1
        have hk0 : k1 = 0 := by simp at hk1; exact hk1
        simp only [List.nil_append]
        exact BlocksChainIn_mono la lb _ m.a m.b i1 j1 hrest (by omega) (by omega)

/-- Appending the sentinel turns a chain inside the whole region into an
exactly-ending chain. -/
theorem blocksLead_of_chain (la lb : Nat) :
    ∀ (l : List MatchBlock) (i j : Nat), BlocksChainIn la lb i j l → i ≤ la → j ≤ lb →
      BlocksLead la lb i j (l ++ [MatchBlock.mk la lb 0]) := by
  intro l
  induction l with
  | nil =>
    intro i j _ h1 h2
    exact ⟨h1, h2, rfl, rfl⟩
  | cons m rest ih =>
    intro i j h h1 h2
    obtain ⟨k1, k2, k3, k4, k5⟩ := h
    exact ⟨k1, k2, ih (m.a + m.size) (m.b + m.size) k5 k3 k4⟩

/-- The matching blocks of two sequences lead from `(0, 0)` exactly to
`(len a, len b)`. -/
theorem get_matching_blocks_lead (a b : List String) :
    BlocksLead a.length b.length 0 0 (get_matching_blocks a b) := by
  unfold get_matching_blocks
  apply blocksLead_of_chain
  · exact collapseAdjacent_chain a.length b.length
      (matchingBlocksAux a b (a.length + b.length) 0 a.length 0 b.length) 0 0 0
      (matchingBlocksAux_chain a b (a.length + b.length) 0 a.length 0 b.length)
      (by omega) (by omega)
  · exact Nat.zero_le _
  · exact Nat.zero_le _

/-- Tilings compose over concatenation. -/
theorem covers_append (f1 f2 : Opcode → Nat) :
    ∀ (L R : List Opcode) (lo mid hi : Nat),
      covers f1 f2 lo mid L → covers f1 f2 mid hi R → covers f1 f2 lo hi (L ++ R) := by
  intro L
  induction L with
  | nil =>
    intro R lo mid hi hL hR
    have h : lo = mid := hL
    rw [h]
    exact hR
  | cons op L ih =>
    intro R lo mid hi hL hR
    obtain ⟨k1, k2, k3⟩ := hL
    exact ⟨k1, k2, ih R _ mid hi k3 hR⟩

/-- The opcode loop turns an exactly-ending block chain into tilings of both
index ranges. -/
theorem opcodesLoop_covers (la lb : Nat) :
    ∀ (blocks : List MatchBlock) (i j : Nat), BlocksLead la lb i j blocks →
      covers (fun op => op.a1) (fun op => op.a2) i la (opcodesLoop i j blocks) ∧
      covers (fun op => op.b1) (fun op => op.b2) j lb (opcodesLoop i j blocks) := by
  intro blocks
  induction blocks with
  | nil =>
    intro i j h
    exact ⟨h.1, h.2⟩
  | cons m rest ih =>
    intro i j h
    obtain ⟨h1, h2, h3⟩ := h
    obtain ⟨ihr1, ihr2⟩ := ih (m.a + m.size) (m.b + m.size) h3
    have hfront_a : covers (fun op => op.a1) (fun op => op.a2) i m.a
        (if i < m.a ∧ j < m.b then [Opcode.mk Tag.replace i m.a j m.b]
         else if i < m.a then [Opcode.mk Tag.delete i m.a j m.b]
         else if j < m.b then [Opcode.mk Tag.insert i m.a j m.b]
         else []) := by
      split
      · exact ⟨rfl, h1, rfl⟩
      split
      · exact ⟨rfl, h1, rfl⟩
      split
      · exact ⟨rfl, h1, rfl⟩
      · rename_i hc1 hc2 hc3
        show i = m.a
        omega
    have hfront_b : covers (fun op => op.b1) (fun op => op.b2) j m.b
        (if i < m.a ∧ j < m.b then [Opcode.mk Tag.replace i m.a j m.b]
         else if i < m.a then [Opcode.mk Tag.delete i m.a j m.b]
         else if j < m.b then [Opcode.mk Tag.insert i m.a j m.b]
         else []) := by
      split
      · exact ⟨rfl, h2, rfl⟩
      split
      · exact ⟨rfl, h2, rfl⟩
      split
      · exact ⟨rfl, h2, rfl⟩
      · rename_i hc1 hc2 hc3
        show j = m.b
        omega
    have hequal_a : covers (fun op => op.a1) (fun op => op.a2) m.a (m.a + m.size)
        (if m.size ≠ 0 then
          [Opcode.mk Tag.equal m.a (m.a + m.size) m.b (m.b + m.size)] else []) := by
      split
      · refine ⟨rfl, ?_, rfl⟩
        show m.a ≤ m.a + m.size
        omega
      · rename_i h0
        show m.a = m.a + m.size
        omega
    have hequal_b : covers (fun op => op.b1) (fun op => op.b2) m.b (m.b + m.size)
        (if m.size ≠ 0 then
          [Opcode.mk Tag.equal m.a (m.a + m.size) m.b (m.b + m.size)] else []) := by
      split
      · refine ⟨rfl, ?_, rfl⟩
        show m.b ≤ m.b + m.size
        omega
      · rename_i h0
        show m.b = m.b + m.size
        omega
    simp only [opcodesLoop]
    constructor
    · exact covers_append _ _ _ _ i (m.a + m.size) la
        (covers_append _ _ _ _ i m.a (m.a + m.size) hfront_a hequal_a) ihr1
    · exact covers_append _ _ _ _ j (m.b + m.size) lb
        (covers_append _ _ _ _ j m.b (m.b + m.size) hfront_b hequal_b) ihr2

/-- C3: for all input sequences, the opcode ranges returned by the aligner
partition both index ranges: they appear left to right, each range starts
exactly where the previous ended, none is reversed, the first starts at 0
and the last ends at the sequence length, on both the `a` and the `b`
side. -/
theorem align_partition (a b : List String) :
    covers (fun op => op.a1) (fun op => op.a2) 0 a.length (get_opcodes a b) ∧
    covers (fun op => op.b1) (fun op => op.b2) 0 b.length (get_opcodes a b) := by
  unfold get_opcodes
  exact opcodesLoop_covers a.length b.length (get_matching_blocks a b) 0 0
    (get_matching_blocks_lead a b)

/-! ## Walker theorems: branch admission, merge-base, error surfacing -/

/-- Boolean shape of the include guard. -/
theorem guard_and_not_iff (x y : Bool) : (!(x && !y)) = true ↔ (x = false ∨ y = true) := by
  cases x <;> cases y <;> simp

/-- Boolean shape of the exclude guard. -/
theorem guard_and_iff (x y : Bool) : (!(x && y)) = true ↔ (x = false ∨ y = false) := by
  cases x <;> cases y <;> simp

/-- The lower date guard passes exactly when the author date is not below
the bound. -/
theorem afterSkip_guard (o : Option Int) (ad : Int) :
    (!afterSkip o ad) = true ↔ ∀ d ∈ o, d ≤ ad := by
  cases o <;> simp [afterSkip]

/-- The upper date guard passes exactly when the author date is not above
the bound. -/
theorem beforeSkip_guard (o : Option Int) (ad : Int) :
    (!beforeSkip o ad) = true ↔ ∀ d ∈ o, ad ≤ d := by
  cases o <;> simp [beforeSkip]

/-- An absent or empty exclude list excludes nothing; otherwise the joined
search must fail, which (given alternation) means every pattern fails. -/
theorem exclude_guard (o : Option (List String)) (f : String → Bool) :
    (optTruthy o = false ∨ (o.getD []).any f = false) ↔
      ∀ p ∈ o.getD [], f p = false := by
  constructor
  · rintro (h | h) p hp
    · have he : o.getD [] = [] := by
        simpa [optTruthy] using h
      rw [he] at hp
      exact absurd hp (List.not_mem_nil p)
    · have := List.any_eq_false.mp h p hp
      simpa using this
  · intro h
    right
    rw [List.any_eq_false]
    intro p hp
    simp [h p hp]

/-- C6: a candidate branch is admitted (reaches file-diffing) exactly when
the include test passes (no include patterns, or some include pattern
matches by search), no exclude pattern matches, and the tip's author date
lies within the configured bounds.  The regex engine is abstract; the two
hypotheses state the standard alternation law for the joined include and
exclude patterns the code builds with `'|'.join`. -/
theorem track_branch_admission (reSearch : String → String → Bool)
    (cfg : TrackerConfig) (bl : List (String × Int)) (branch : String)
    (authordate : Int)
    (hinc : ∀ s, reSearch (joinBar (cfg.branches.getD [])) s
      = (cfg.branches.getD []).any (fun p => reSearch p s))
    (hexc : ∀ s, reSearch (joinBar (cfg.no_branches.getD [])) s
      = (cfg.no_branches.getD []).any (fun p => reSearch p s)) :
    (branch, authordate) ∈ track reSearch cfg bl ↔
      ((branch, authordate) ∈ bl ∧
       (optTruthy cfg.branches = false ∨
         ∃ p ∈ cfg.branches.getD [], reSearch p branch = true) ∧
       (∀ p ∈ cfg.no_branches.getD [], reSearch p branch = false) ∧
       (∀ d ∈ cfg.after_date, d ≤ authordate) ∧
       (∀ d ∈ cfg.before_date, authordate ≤ d)) := by
  simp only [track, List.mem_filter]
  have hiff : branchAdmitted reSearch cfg branch authordate = true ↔
      ((optTruthy cfg.branches = false ∨
         ∃ p ∈ cfg.branches.getD [], reSearch p branch = true) ∧
       (∀ p ∈ cfg.no_branches.getD [], reSearch p branch = false) ∧
       (∀ d ∈ cfg.after_date, d ≤ authordate) ∧
       (∀ d ∈ cfg.before_date, authordate ≤ d)) := by
    simp only [branchAdmitted, Bool.and_eq_true]
    rw [guard_and_not_iff, guard_and_iff, afterSkip_guard, beforeSkip_guard,
      hinc branch, hexc branch, List.any_eq_true, exclude_guard]
    exact ⟨fun ⟨⟨⟨a, b⟩, c⟩, d⟩ => ⟨a, b, c, d⟩, fun ⟨a, b, c, d⟩ => ⟨⟨⟨a, b⟩, c⟩, d⟩⟩
  rw [hiff]

/-- Witness for C6 with a literal-matching engine and one include
pattern. -/
theorem track_branch_admission_witness :
    ("origin-feature-1", (0 : Int)) ∈
        track rsFeature
          { remote := "origin", branches := some ["feature"] }
          [("origin-feature-1", 0)] ↔
      (("origin-feature-1", (0 : Int)) ∈ [(("origin-feature-1" : String), (0 : Int))] ∧
       (optTruthy (some ["feature"]) = false ∨
         ∃ p ∈ (some ["feature"] : Option (List String)).getD [],
           rsFeature p "origin-feature-1" = true) ∧
       (∀ p ∈ ((none : Option (List String)).getD []),
         rsFeature p "origin-feature-1" = false) ∧
       (∀ d ∈ (none : Option Int), d ≤ (0 : Int)) ∧
       (∀ d ∈ (none : Option Int), (0 : Int) ≤ d)) :=
  track_branch_admission rsFeature
    { remote := "origin", branches := some ["feature"] }
    [("origin-feature-1", 0)] "origin-feature-1" 0
    (fun s => by
      simp [joinBar, rsFeature,
        show ("|".intercalate ["feature"] : String) = "feature" by decide])
    (fun s => by
      simp [joinBar, rsFeature,
        show ("|".intercalate ([] : List String) : String) = "" by decide])

/-- C7 counterexample: the claim makes the mainline branch name part of the
caller-supplied criteria, but the code hardcodes `<remote>/master`: with a
backend whose merge-base and diff answers distinguish `origin/master` from
`origin/main`, the walker returns the master-based file list and not the
main-based one, and no criteria field exists that could change this. -/
theorem track_branch_mainline_cex :
    track_branch rsAll gmb0 gdf0 { remote := "origin" } "b" = ["fileM"] ∧
    gdf0 (branch_full "origin" "b")
        (gmb0 (branch_full "origin" "b") "origin/main") = ["fileN"] ∧
    (["fileM"] : List String) ≠ ["fileN"] := by
  refine ⟨by decide, by decide, by decide⟩

/-- C7 (amended): for every surviving branch, with no file filters
configured, the set of files analyzed is exactly the files differing
between the branch tip and the merge-base of the branch tip with
`<remote>/master`; the mainline branch name is hardcoded to `master`, not
part of the caller-supplied criteria. -/
theorem track_branch_files_master_base (reSearch : String → String → Bool)
    (gmb : String → String → String) (gdf : String → String → List String)
    (cfg : TrackerConfig) (branch : String)
    (hf : cfg.files = none) (hnf : cfg.no_files = none) :
    track_branch reSearch gmb gdf cfg branch =
      gdf (branch_full cfg.remote branch)
        (gmb (branch_full cfg.remote branch) (master_full cfg.remote)) := by
  simp only [track_branch]
  have hall : ∀ fp ∈ gdf (branch_full cfg.remote branch)
      (gmb (branch_full cfg.remote branch) (master_full cfg.remote)),
      fileAdmitted reSearch cfg fp = true := by
    intro fp _
    simp [fileAdmitted, hf, hnf, optTruthy]
  exact List.filter_eq_self.mpr hall

/-- Witness for C7's amended theorem at the concrete fixture backend. -/
theorem track_branch_files_master_base_witness :
    track_branch rsAll gmb0 gdf0 { remote := "origin" } "b" =
      gdf0 (branch_full "origin" "b")
        (gmb0 (branch_full "origin" "b") (master_full "origin")) :=
  track_branch_files_master_base rsAll gmb0 gdf0 { remote := "origin" } "b" rfl rfl

/-- C8 counterexample: with an uncompilable file-include pattern in the
criteria, the branch-listing backend call is made before the compile error
surfaces; the error is therefore not raised at criteria-construction time,
and a backend operation does run while an invalid pattern is present. -/
theorem compile_error_after_backend_cex :
    trackTrace compileOk0 rsAll backend0
        { remote := "origin", files := some ["("] } =
      [GitEvent.getBranches "origin", GitEvent.compileError "("] := by
  decide

/-- C8 (amended): pattern compilation happens on first demand inside the
walk, not at construction: an uncompilable branch include or exclude
pattern aborts the run before any backend event, while an uncompilable file
pattern aborts only after the branch-listing event but before any
merge-base, diff-files, or blame event. -/
theorem compile_errors_surface_in_walk (compileOk : String → Bool)
    (reSearch : String → String → Bool) (backend : GitBackend)
    (cfg : TrackerConfig) :
    (compileOk (joinBar (cfg.branches.getD [])) = false →
      trackTrace compileOk reSearch backend cfg =
        [GitEvent.compileError (joinBar (cfg.branches.getD []))]) ∧
    (compileOk (joinBar (cfg.branches.getD [])) = true →
      compileOk (joinBar (cfg.no_branches.getD [])) = true →
      (compileOk (joinBar (cfg.files.getD [])) = false ∨
        compileOk (joinBar (cfg.no_files.getD [])) = false) →
      ∀ e ∈ trackTrace compileOk reSearch backend cfg,
        expensiveEvent e = false) := by
  constructor
  · intro h
    simp [trackTrace, h]
  · intro h1 h2 h3 e he
    simp only [trackTrace, h1, h2] at he
    simp only [Bool.true_eq_false, if_false] at he
    rcases List.mem_cons.mp he with he | he
    · rw [he]
      rfl
    · cases hadm : backend.branches.filter
          (fun bd => branchAdmitted reSearch cfg bd.1 bd.2) with
      | nil =>
        rw [hadm] at he
        simp [runBranches] at he
      | cons bd rest =>
        rw [hadm] at he
        by_cases hif : compileOk (joinBar (cfg.files.getD [])) = false
        · simp only [runBranches, hif, if_true, reduceIte] at he
          have : e = GitEvent.compileError (joinBar (cfg.files.getD [])) := by
            simpa using he
          rw [this]
          rfl
        · have hif' : compileOk (joinBar (cfg.files.getD [])) = true := by
            cases h : compileOk (joinBar (cfg.files.getD []))
            · exact absurd h hif
            · rfl
          have hnf : compileOk (joinBar (cfg.no_files.getD [])) = false := by
            rcases h3 with h3 | h3
            · exact absurd h3 hif
            · exact h3
          simp only [runBranches, hif', hnf, Bool.true_eq_false, if_false, if_true,
            reduceIte] at he
          have : e = GitEvent.compileError (joinBar (cfg.no_files.getD [])) := by
            simpa using he
          rw [this]
          rfl

/-- Witness for C8's amended theorem: an invalid branch pattern aborts with
no backend event; an invalid file pattern yields no expensive event. -/
theorem compile_errors_surface_in_walk_witness :
    (trackTrace compileNone rsAll backend0 { remote := "origin" } =
      [GitEvent.compileError
        (joinBar ((({ remote := "origin" } : TrackerConfig).branches).getD []))]) ∧
    (∀ e ∈ trackTrace compileOk0 rsAll backend0
        { remote := "origin", files := some ["("] },
      expensiveEvent e = false) :=
  ⟨(compile_errors_surface_in_walk compileNone rsAll backend0
      { remote := "origin" }).1 (by decide),
   (compile_errors_surface_in_walk compileOk0 rsAll backend0
      { remote := "origin", files := some ["("] }).2 (by decide) (by decide)
      (Or.inl (by decide))⟩

end Gittracker
